import Mathlib

/-!
Shallow embedding of the core of `rust-ole-inspector`: the COM-object data
model (`src/types.rs`), the filter evaluator (`src/filter.rs`), the registry
scan loop (`src/registry.rs`, `scan_com_objects`), the per-view merge fold in
`main` (`src/main.rs`, lines 86-98), and the usability classifier
(`src/display.rs`, `check_usability`).

The Windows registry is modelled as the list of enumerated child entries of
the root `CLSID` container, each entry carrying the identifier together with
the already-resolved optional `ProgID` default value and optional description
default value (`get_prog_id` / `get_description` return `Option<String>`,
absence is data, not an error).  A failure to open the root container is
modelled by the view being `Option.none`.  Rust's `HashMap<String, ComObject>`
is modelled as an association list with unique keys; `insert` replaces the
entry for an existing key in place and appends a new key, and equality of
mappings is extensional (equality of `mapLookup` at every key), matching the
order-free contents of a `HashMap`.
-/

namespace OleInspector

/-- `src/types.rs`: `ComObject { clsid, prog_id, description }`. -/
structure ComObject where
  clsid : String
  prog_id : Option String
  description : Option String
deriving DecidableEq, Repr

/-- Rust `str::to_lowercase` restricted to its behaviour on ASCII data
(identifiers, ProgIDs and the filter strings exercised here are ASCII). -/
def lowerStr (s : String) : String :=
  ⟨s.data.map Char.toLower⟩

/-- Rust `str::contains(&str)`: substring containment on the underlying
character sequences. -/
def strContains (hay needle : String) : Bool :=
  hay.data.tails.any (fun t => needle.data.isPrefixOf t)

/-- `opt.as_ref().map(|s| s.to_lowercase().contains(&needle)).unwrap_or(false)`
where `needle` is already lower-cased by the caller. -/
def optMatches (field : Option String) (needle : String) : Bool :=
  (field.map (fun s => strContains (lowerStr s) needle)).getD false

/-- The body of the interactive-filter block of `should_include_object`
(`src/filter.rs` lines 17-27), also the per-keyword body of the app-filter
block (lines 57-68): lower-case the filter, then test ProgID, description and
CLSID. -/
def freeTextMatches (prog_id description : Option String) (clsid : String)
    (filter : String) : Bool :=
  let filter_lower := lowerStr filter
  optMatches prog_id filter_lower
    || optMatches description filter_lower
    || strContains (lowerStr clsid) filter_lower

/-- `src/filter.rs` `should_include_object`: four sequential blocks, each
`return false` when its filter is active and fails to match; `true` if no
block rejects. -/
def should_include_object (prog_id description : Option String) (clsid : String)
    (interactive_filter filter_description filter_clsid : Option String)
    (filter_app : Option (List String)) : Bool :=
  if (match interactive_filter with
      | some filter => !(freeTextMatches prog_id description clsid filter)
      | none => false) then false
  else if (match filter_description with
      | some desc_filter => !(optMatches description (lowerStr desc_filter))
      | none => false) then false
  else if (match filter_clsid with
      | some clsid_filter => !(strContains (lowerStr clsid) (lowerStr clsid_filter))
      | none => false) then false
  else if (match filter_app with
      | some app_filters =>
          !(app_filters.any (fun app => freeTextMatches prog_id description clsid app))
      | none => false) then false
  else true

/-- The result mapping: `HashMap<String, ComObject>` as an association list
with unique keys. -/
abbrev ComMap := List (String × ComObject)

/-- `HashMap` lookup: the value stored at key `k`, if any. -/
def mapLookup : ComMap → String → Option ComObject
  | [], _ => none
  | p :: rest, k => if p.1 = k then some p.2 else mapLookup rest k

/-- `HashMap::insert`: replace the entry of an existing key in place, append a
new key. -/
def mapInsert : ComMap → String → ComObject → ComMap
  | [], k, v => [(k, v)]
  | p :: rest, k, v => if p.1 = k then (k, v) :: rest else p :: mapInsert rest k v

/-- One enumerated child entry of the root `CLSID` container of one registry
view: the key name (the identifier) together with the values that
`get_prog_id` and `get_description` resolve for it (`None` when the sub-key or
its default value is absent). -/
structure RegEntry where
  name : String
  prog_id : Option String
  description : Option String
deriving DecidableEq, Repr

/-- The enumeration loop of `scan_com_objects` (`src/registry.rs` lines
51-104): for each enumerated entry resolve ProgID and description, test the
filters, insert on acceptance, and stop as soon as a positive `limit` is
reached; enumeration exhaustion ends the loop normally. -/
def scanLoop (interactive_filter filter_description filter_clsid : Option String)
    (filter_app : Option (List String)) (limit : Nat) :
    List RegEntry → ComMap → ComMap
  | [], objects => objects
  | e :: rest, objects =>
    if should_include_object e.prog_id e.description e.name
        interactive_filter filter_description filter_clsid filter_app then
      let objects2 := mapInsert objects e.name
        { clsid := e.name, prog_id := e.prog_id, description := e.description }
      if 0 < limit ∧ limit ≤ objects2.length then objects2
      else scanLoop interactive_filter filter_description filter_clsid
        filter_app limit rest objects2
    else scanLoop interactive_filter filter_description filter_clsid
      filter_app limit rest objects

/-- `src/registry.rs` `scan_com_objects`: `view` is the outcome of opening
`HKEY_CLASSES_ROOT\CLSID` under the requested view flag — `none` when
`RegOpenKeyExW` fails (the function returns the error), `some entries` when it
succeeds, in which case the enumeration loop always produces an `Ok` mapping. -/
def scan_com_objects (view : Option (List RegEntry)) (limit : Nat)
    (filter_description filter_clsid : Option String)
    (filter_app : Option (List String))
    (interactive_filter : Option String) : Except String ComMap :=
  match view with
  | none => .error "Failed to open CLSID key"
  | some entries => .ok (scanLoop interactive_filter filter_description
      filter_clsid filter_app limit entries [])

/-- The `and_modify` closure of the merge fold (`src/main.rs` lines 89-96):
keep the existing record, copying `prog_id` (resp. `description`) from the
incoming record only when the incoming field is present and the existing one
is absent. -/
def fillRecord (existing incoming : ComObject) : ComObject :=
  { existing with
    prog_id :=
      if incoming.prog_id.isSome && existing.prog_id.isNone
      then incoming.prog_id else existing.prog_id,
    description :=
      if incoming.description.isSome && existing.description.isNone
      then incoming.description else existing.description }

/-- One step of the merge fold (`src/main.rs` lines 87-97):
`entry(clsid).and_modify(fill).or_insert(obj)`. -/
def mergeStep (acc : ComMap) (kv : String × ComObject) : ComMap :=
  match mapLookup acc kv.1 with
  | some existing => mapInsert acc kv.1 (fillRecord existing kv.2)
  | none => mapInsert acc kv.1 kv.2

/-- The merge fold of `main` over one scanned view's mapping
(`src/main.rs` lines 86-98). -/
def mergeInto (acc : ComMap) (objects : ComMap) : ComMap :=
  objects.foldl mergeStep acc

/-- One iteration of `main`'s loop over the requested views (`src/main.rs`
lines 79-104): an `Ok` mapping is merged into the accumulator; an `Err` is
reported and the accumulator is left unchanged. -/
def processView (acc : ComMap) (res : Except String ComMap) : ComMap :=
  match res with
  | .ok objects => mergeInto acc objects
  | .error _ => acc

/-- `main`'s whole merge phase: fold the per-view scan results into an
initially empty accumulator. -/
def mergeAll (results : List (Except String ComMap)) : ComMap :=
  results.foldl processView []

/-- `src/display.rs` `check_usability`: the four-way match on the presence of
`prog_id` and `description`. -/
def check_usability (obj : ComObject) : String :=
  match obj.prog_id, obj.description with
  | some _, some _ => "✓ High (has ProgID and description)"
  | some _, none => "~ Medium (has ProgID)"
  | none, some _ => "~ Low (no ProgID, has description)"
  | none, none => "✗ Very Low (no ProgID or description)"

/-- Spec-side reading of the FilterSet semantics (the claim's words): the
candidate is admitted iff every active filter matches it — free-text on any of
the three fields, description-only on the description, id-only on the
identifier, and the application-keyword filter as an internal OR over its
keywords. -/
def filterMatchesAll (prog_id description : Option String) (clsid : String)
    (interactive_filter filter_description filter_clsid : Option String)
    (filter_app : Option (List String)) : Bool :=
  (match interactive_filter with
   | some filter => freeTextMatches prog_id description clsid filter
   | none => true)
  && (match filter_description with
   | some desc_filter => optMatches description (lowerStr desc_filter)
   | none => true)
  && (match filter_clsid with
   | some clsid_filter => strContains (lowerStr clsid) (lowerStr clsid_filter)
   | none => true)
  && (match filter_app with
   | some app_filters => app_filters.any (fun app => freeTextMatches prog_id description clsid app)
   | none => true)

/-- Spec-side reading for C6: some active filter that references
`friendly_name` (the free-text filter or the application-keyword filter)
matched the candidate. -/
def nameFilterMatched (prog_id description : Option String) (clsid : String)
    (interactive_filter : Option String) (filter_app : Option (List String)) : Bool :=
  (match interactive_filter with
   | some filter => freeTextMatches prog_id description clsid filter
   | none => false)
  || (match filter_app with
   | some app_filters => app_filters.any (fun app => freeTextMatches prog_id description clsid app)
   | none => false)

/-- Spec-side reading of the usability table: a function of the two presence
bits alone. -/
def usabilityOfPair (hasProgId hasDescription : Bool) : String :=
  match hasProgId, hasDescription with
  | true, true => "✓ High (has ProgID and description)"
  | true, false => "~ Medium (has ProgID)"
  | false, true => "~ Low (no ProgID, has description)"
  | false, false => "✗ Very Low (no ProgID or description)"

/-- The mapping invariant of §3 of the spec: keys are pairwise distinct and
each record's `clsid` field equals its mapping key. -/
def MapWF (m : ComMap) : Prop :=
  (m.map Prod.fst).Nodup ∧ ∀ p ∈ m, p.2.clsid = p.1

section Helpers

lemma if_bnot_eq_and (x r : Bool) : (if (!x) = true then false else r) = (x && r) := by
  cases x <;> simp

lemma shouldInclude_eq_filterMatchesAll (p d : Option String) (c : String)
    (fi fd fc : Option String) (fa : Option (List String)) :
    should_include_object p d c fi fd fc fa = filterMatchesAll p d c fi fd fc fa := by
  unfold should_include_object filterMatchesAll
  cases fi <;> cases fd <;> cases fc <;> cases fa <;>
    simp only [if_bnot_eq_and, if_false, Bool.true_and, Bool.and_true, if_neg,
      Bool.and_assoc] <;> simp

lemma optMatches_none (needle : String) : optMatches none needle = false := rfl

lemma strContains_of_data_nil (hay needle : String) (h : needle.data = []) :
    strContains hay needle = true := by
  unfold strContains
  rw [List.any_eq_true]
  exact ⟨hay.data, by simp [List.mem_tails], by simp [h, List.isPrefixOf]⟩

/-- `Result::is_ok` on the scan result. -/
def exceptIsOk : Except String ComMap → Bool
  | .ok _ => true
  | .error _ => false

lemma lookup_mapInsert (m : ComMap) (k : String) (v : ComObject) (q : String) :
    mapLookup (mapInsert m k v) q = if k = q then some v else mapLookup m q := by
  induction m with
  | nil => simp [mapInsert, mapLookup]
  | cons p rest ih =>
    obtain ⟨pk, pv⟩ := p
    by_cases hp : pk = k <;> by_cases hq : k = q <;>
      simp_all [mapInsert, mapLookup]

lemma length_mapInsert_le (m : ComMap) (k : String) (v : ComObject) :
    (mapInsert m k v).length ≤ m.length + 1 := by
  induction m with
  | nil => simp [mapInsert]
  | cons p rest ih =>
    by_cases hp : p.1 = k
    · simp [mapInsert, hp]
    · simp only [mapInsert, if_neg hp, List.length_cons]
      omega

lemma lookup_isSome_iff_mem (m : ComMap) (k : String) :
    (mapLookup m k).isSome = true ↔ k ∈ m.map Prod.fst := by
  induction m with
  | nil => simp [mapLookup]
  | cons p rest ih =>
    by_cases hp : p.1 = k
    · simp [mapLookup, hp]
    · simp [mapLookup, hp, ih, show k ≠ p.1 from fun h => hp h.symm]

lemma lookup_eq_none_of_not_mem (m : ComMap) (k : String)
    (h : k ∉ m.map Prod.fst) : mapLookup m k = none := by
  cases hl : mapLookup m k with
  | none => rfl
  | some v => exact absurd ((lookup_isSome_iff_mem m k).1 (by simp [hl])) h

lemma keys_mapInsert_mem (m : ComMap) (k : String) (v : ComObject)
    (h : k ∈ m.map Prod.fst) :
    (mapInsert m k v).map Prod.fst = m.map Prod.fst := by
  induction m with
  | nil => simp at h
  | cons p rest ih =>
    by_cases hp : p.1 = k
    · simp [mapInsert, hp]
    · have h' : k ∈ rest.map Prod.fst := by
        rw [List.map_cons] at h
        rcases List.mem_cons.1 h with h1 | h2
        · exact absurd h1.symm hp
        · exact h2
      simp [mapInsert, hp, ih h']

lemma keys_mapInsert_not_mem (m : ComMap) (k : String) (v : ComObject)
    (h : k ∉ m.map Prod.fst) :
    (mapInsert m k v).map Prod.fst = m.map Prod.fst ++ [k] := by
  induction m with
  | nil => simp [mapInsert]
  | cons p rest ih =>
    have hp : ¬(p.1 = k) := fun he => h (by simp [he.symm])
    have h' : k ∉ rest.map Prod.fst := fun hk => h (by simp [hk])
    simp [mapInsert, hp, ih h']

lemma mem_mapInsert (m : ComMap) (k : String) (v : ComObject)
    (q : String × ComObject) (h : q ∈ mapInsert m k v) : q = (k, v) ∨ q ∈ m := by
  induction m with
  | nil => simpa [mapInsert] using h
  | cons p rest ih =>
    by_cases hp : p.1 = k
    · simp only [mapInsert, if_pos hp, List.mem_cons] at h
      rcases h with h | h
      · exact Or.inl h
      · exact Or.inr (List.mem_cons_of_mem _ h)
    · simp only [mapInsert, if_neg hp, List.mem_cons] at h
      rcases h with h | h
      · exact Or.inr (by simp [h])
      · rcases ih h with h1 | h2
        · exact Or.inl h1
        · exact Or.inr (List.mem_cons_of_mem _ h2)

lemma lookup_some_mem (m : ComMap) (k : String) (v : ComObject)
    (h : mapLookup m k = some v) : (k, v) ∈ m := by
  induction m with
  | nil => simp [mapLookup] at h
  | cons p rest ih =>
    obtain ⟨pk, pv⟩ := p
    by_cases hp : pk = k
    · simp only [mapLookup, if_pos hp] at h
      obtain rfl := Option.some.inj h
      simp [hp]
    · simp only [mapLookup, if_neg hp] at h
      exact List.mem_cons_of_mem _ (ih h)

lemma mapWF_insert (m : ComMap) (k : String) (v : ComObject)
    (hwf : MapWF m) (hc : v.clsid = k) : MapWF (mapInsert m k v) := by
  obtain ⟨hnd, hcl⟩ := hwf
  constructor
  · by_cases hk : k ∈ m.map Prod.fst
    · rw [keys_mapInsert_mem m k v hk]; exact hnd
    · rw [keys_mapInsert_not_mem m k v hk, ← List.concat_eq_append]
      exact List.Nodup.concat hk hnd
  · intro p hp
    rcases mem_mapInsert m k v p hp with h | h
    · rw [h]; exact hc
    · exact hcl p h

lemma scanLoop_length_le (fi fd fc : Option String) (fa : Option (List String))
    (limit : Nat) :
    ∀ (entries : List RegEntry) (acc : ComMap), 0 < limit → acc.length < limit →
      (scanLoop fi fd fc fa limit entries acc).length ≤ limit := by
  intro entries
  induction entries with
  | nil =>
    intro acc h1 h2
    simp only [scanLoop]
    omega
  | cons e rest ih =>
    intro acc h1 h2
    simp only [scanLoop]
    by_cases hf : should_include_object e.prog_id e.description e.name fi fd fc fa = true
    · rw [if_pos hf]
      have hlen : (mapInsert acc e.name
          { clsid := e.name, prog_id := e.prog_id, description := e.description }).length
          ≤ acc.length + 1 := length_mapInsert_le _ _ _
      by_cases hstop : 0 < limit ∧ limit ≤ (mapInsert acc e.name
          { clsid := e.name, prog_id := e.prog_id, description := e.description }).length
      · rw [if_pos hstop]
        omega
      · rw [if_neg hstop]
        have hlt : (mapInsert acc e.name
            { clsid := e.name, prog_id := e.prog_id, description := e.description }).length
            < limit := by
          by_contra hge
          exact hstop ⟨h1, by omega⟩
        exact ih _ h1 hlt
    · rw [if_neg hf]
      exact ih _ h1 h2

lemma scanLoop_WF (fi fd fc : Option String) (fa : Option (List String)) (limit : Nat) :
    ∀ (entries : List RegEntry) (acc : ComMap), MapWF acc →
      MapWF (scanLoop fi fd fc fa limit entries acc) := by
  intro entries
  induction entries with
  | nil =>
    intro acc h
    simpa only [scanLoop] using h
  | cons e rest ih =>
    intro acc h
    simp only [scanLoop]
    by_cases hf : should_include_object e.prog_id e.description e.name fi fd fc fa = true
    · rw [if_pos hf]
      have h2 : MapWF (mapInsert acc e.name
          { clsid := e.name, prog_id := e.prog_id, description := e.description }) :=
        mapWF_insert _ _ _ h rfl
      by_cases hstop : 0 < limit ∧ limit ≤ (mapInsert acc e.name
          { clsid := e.name, prog_id := e.prog_id, description := e.description }).length
      · rw [if_pos hstop]
        exact h2
      · rw [if_neg hstop]
        exact ih _ h2
    · rw [if_neg hf]
      exact ih _ h

lemma mergeInto_cons (acc : ComMap) (kv : String × ComObject) (rest : ComMap) :
    mergeInto acc (kv :: rest) = mergeInto (mergeStep acc kv) rest := rfl

lemma mergeStep_WF (acc : ComMap) (kv : String × ComObject)
    (hacc : MapWF acc) (hkv : kv.2.clsid = kv.1) : MapWF (mergeStep acc kv) := by
  obtain ⟨k, v⟩ := kv
  cases hl : mapLookup acc k with
  | none =>
    simp only [mergeStep, hl]
    exact mapWF_insert _ _ _ hacc hkv
  | some ex =>
    simp only [mergeStep, hl]
    refine mapWF_insert _ _ _ hacc ?_
    have hm := lookup_some_mem acc k ex hl
    have hex := hacc.2 (k, ex) hm
    simpa [fillRecord] using hex

lemma mergeInto_WF :
    ∀ (objects acc : ComMap), MapWF acc → (∀ p ∈ objects, p.2.clsid = p.1) →
      MapWF (mergeInto acc objects) := by
  intro objects
  induction objects with
  | nil =>
    intro acc h _
    simpa only [mergeInto, List.foldl_nil] using h
  | cons kv rest ih =>
    intro acc h hobj
    rw [mergeInto_cons]
    exact ih _ (mergeStep_WF acc kv h (hobj kv (by simp)))
      (fun p hp => hobj p (List.mem_cons_of_mem _ hp))

lemma lookup_mergeStep (acc : ComMap) (kv : String × ComObject) (k : String) :
    mapLookup (mergeStep acc kv) k =
      if kv.1 = k then
        some (match mapLookup acc kv.1 with
              | some a => fillRecord a kv.2
              | none => kv.2)
      else mapLookup acc k := by
  obtain ⟨k1, v1⟩ := kv
  cases hl : mapLookup acc k1 with
  | none =>
    simp only [mergeStep, hl]
    rw [lookup_mapInsert]
  | some ex =>
    simp only [mergeStep, hl]
    rw [lookup_mapInsert]

lemma lookup_mergeInto :
    ∀ (objects acc : ComMap) (k : String), (objects.map Prod.fst).Nodup →
      mapLookup (mergeInto acc objects) k =
        match mapLookup objects k with
        | some b =>
            (match mapLookup acc k with
             | some a => some (fillRecord a b)
             | none => some b)
        | none => mapLookup acc k := by
  intro objects
  induction objects with
  | nil =>
    intro acc k _
    simp [mergeInto, mapLookup]
  | cons kv rest ih =>
    intro acc k hnd
    obtain ⟨k1, v1⟩ := kv
    rw [List.map_cons, List.nodup_cons] at hnd
    obtain ⟨hk1, hnd'⟩ := hnd
    rw [mergeInto_cons, ih _ k hnd']
    by_cases hk : k1 = k
    · subst hk
      have hrest : mapLookup rest k1 = none := lookup_eq_none_of_not_mem rest k1 hk1
      have hhead : mapLookup ((k1, v1) :: rest) k1 = some v1 := by
        simp [mapLookup]
      rw [hrest, hhead, lookup_mergeStep]
      simp only [if_pos rfl]
      cases mapLookup acc k1 <;> rfl
    · have hhead : mapLookup ((k1, v1) :: rest) k = mapLookup rest k := by
        simp [mapLookup, hk]
      rw [hhead, lookup_mergeStep]
      simp only [if_neg hk]

lemma lookup_singleton (k0 : String) (r : ComObject) (k : String) (v : ComObject)
    (h : mapLookup [(k0, r)] k = some v) : v = r := by
  by_cases hk : k0 = k
  · simp only [mapLookup, if_pos hk] at h
    exact (Option.some.inj h).symm
  · simp [mapLookup, hk] at h

lemma fillRecord_comm (a b : ComObject) (hc : a.clsid = b.clsid)
    (hp : ∀ x y, a.prog_id = some x → b.prog_id = some y → x = y)
    (hd : ∀ x y, a.description = some x → b.description = some y → x = y) :
    fillRecord a b = fillRecord b a := by
  obtain ⟨ac, ap, ad⟩ := a
  obtain ⟨bc, bp, bd⟩ := b
  cases ap <;> cases bp <;> cases ad <;> cases bd <;>
    simp_all [fillRecord]

end Helpers

/-- C4: the filter evaluator admits a candidate iff every active filter
matches it under case-insensitive substring matching on lower-cased copies of
both operands (free-text over the three fields; description-only and id-only
over their single field; the application-keyword filter as an internal OR over
its keywords, still ANDed with the other active filters); in particular the
filter value "SHELL" matches the field value "Windows Shell Extension". -/
theorem filter_evaluator_iff_all_active_match :
    (∀ (p d : Option String) (c : String) (fi fd fc : Option String)
        (fa : Option (List String)),
      should_include_object p d c fi fd fc fa = filterMatchesAll p d c fi fd fc fa)
    ∧ strContains (lowerStr "Windows Shell Extension") (lowerStr "SHELL") = true :=
  ⟨shouldInclude_eq_filterMatchesAll, by decide⟩

/-- C5: a candidate whose description is absent is rejected whenever a
description-only filter is active, regardless of its identifier, its
friendly name, and any other active filters. -/
theorem absent_description_never_matches :
    ∀ (p : Option String) (c : String) (fi : Option String) (f : String)
      (fc : Option String) (fa : Option (List String)),
      should_include_object p none c fi (some f) fc fa = false := by
  intro p c fi f fc fa
  rw [shouldInclude_eq_filterMatchesAll]
  unfold filterMatchesAll
  simp [optMatches_none]

/-- C10: with the description-only filter set to the empty string (and no
other filter active), every candidate with an absent description is rejected,
while every candidate with a present description is admitted (the empty string
is a substring of every present string, but an absent field never matches). -/
theorem empty_description_filter :
    (∀ (p : Option String) (c : String),
      should_include_object p none c none (some "") none none = false)
    ∧ (∀ (p : Option String) (d : String) (c : String),
      should_include_object p (some d) c none (some "") none none = true) := by
  constructor
  · intro p c
    rw [shouldInclude_eq_filterMatchesAll]
    unfold filterMatchesAll
    simp [optMatches_none]
  · intro p d c
    rw [shouldInclude_eq_filterMatchesAll]
    unfold filterMatchesAll
    simp only [Bool.true_and, Bool.and_true]
    show optMatches (some d) (lowerStr "") = true
    show strContains (lowerStr d) (lowerStr "") = true
    exact strContains_of_data_nil _ _ rfl

/-- C8: the usability classifier is a total function of the two presence bits
alone — both present ↦ high, name only ↦ medium, description only ↦ low,
neither ↦ very low — independent of the string contents of the fields. -/
theorem usability_classifier_total :
    ∀ obj : ComObject,
      check_usability obj = usabilityOfPair obj.prog_id.isSome obj.description.isSome := by
  intro ⟨c, p, d⟩
  cases p <;> cases d <;> rfl

/-- C9: the scan returns an error exactly when opening the root CLSID
container fails (`view = none`); once the root container opens the scan always
returns `Ok`; and the caller treats a failed view exactly like a view that
contributed an empty mapping, continuing with the other views. -/
theorem scan_error_iff_open_failure :
    (∀ (entries : List RegEntry) (limit : Nat) (fd fc : Option String)
        (fa : Option (List String)) (fi : Option String),
      exceptIsOk (scan_com_objects (some entries) limit fd fc fa fi) = true)
    ∧ (∀ (limit : Nat) (fd fc : Option String) (fa : Option (List String))
        (fi : Option String),
      exceptIsOk (scan_com_objects none limit fd fc fa fi) = false)
    ∧ (∀ (acc : ComMap) (e : String),
      processView acc (.error e) = processView acc (.ok [])) :=
  ⟨fun _ _ _ _ _ _ => rfl, fun _ _ _ _ _ => rfl, fun _ _ => rfl⟩

/-- C2: when the merge step meets an identifier already in the accumulator it
keeps the existing record and applies the fill rule, which copies each
optional field from the incoming record only when the existing one is absent:
a present field is never overwritten, the merged field is absent iff it is
absent in both records, and every present merged value comes from one of the
two records. -/
theorem merge_fill_rule :
    ∀ (acc : ComMap) (k : String) (v existing : ComObject),
      (mapLookup acc k = some existing →
        mergeStep acc (k, v) = mapInsert acc k (fillRecord existing v))
      ∧ (fillRecord existing v).clsid = existing.clsid
      ∧ (∀ s, existing.prog_id = some s → (fillRecord existing v).prog_id = some s)
      ∧ (existing.prog_id = none → (fillRecord existing v).prog_id = v.prog_id)
      ∧ ((fillRecord existing v).prog_id = none ↔
          existing.prog_id = none ∧ v.prog_id = none)
      ∧ (∀ s, (fillRecord existing v).prog_id = some s →
          existing.prog_id = some s ∨ v.prog_id = some s)
      ∧ (∀ s, existing.description = some s → (fillRecord existing v).description = some s)
      ∧ (existing.description = none → (fillRecord existing v).description = v.description)
      ∧ ((fillRecord existing v).description = none ↔
          existing.description = none ∧ v.description = none)
      ∧ (∀ s, (fillRecord existing v).description = some s →
          existing.description = some s ∨ v.description = some s) := by
  intro acc k v existing
  refine ⟨fun h => by simp [mergeStep, h], ?_⟩
  obtain ⟨ec, ep, ed⟩ := existing
  obtain ⟨vc, vp, vd⟩ := v
  cases ep <;> cases vp <;> cases ed <;> cases vd <;> simp [fillRecord]

theorem merge_fill_rule_witness :
    mapLookup [("I", ComObject.mk "I" (some "Foo") none)] "I"
        = some (ComObject.mk "I" (some "Foo") none)
    ∧ mergeStep [("I", ComObject.mk "I" (some "Foo") none)]
        ("I", ComObject.mk "I" none (some "Bar app"))
        = mapInsert [("I", ComObject.mk "I" (some "Foo") none)] "I"
            (fillRecord (ComObject.mk "I" (some "Foo") none)
              (ComObject.mk "I" none (some "Bar app")))
    ∧ fillRecord (ComObject.mk "I" (some "Foo") none)
        (ComObject.mk "I" none (some "Bar app"))
        = ComObject.mk "I" (some "Foo") (some "Bar app") :=
  ⟨by decide,
   (merge_fill_rule [("I", ComObject.mk "I" (some "Foo") none)] "I"
      (ComObject.mk "I" none (some "Bar app"))
      (ComObject.mk "I" (some "Foo") none)).1 (by decide),
   by decide⟩

/-- C6 fails as stated: with no filters active, a candidate whose friendly
name is present is admitted while no active filter referencing the friendly
name (nor any filter at all) was matched during admission. -/
theorem admission_name_filter_counterexample :
    should_include_object (some "InternetExplorer.Application") none
      "{0002DF01-0000-0000-C000-000000000046}" none none none none = true
    ∧ (some "InternetExplorer.Application" : Option String).isSome = true
    ∧ nameFilterMatched (some "InternetExplorer.Application") none
      "{0002DF01-0000-0000-C000-000000000046}" none none = false :=
  ⟨by decide, rfl, rfl⟩

/-- C6 amended: for every admitted candidate, every ACTIVE filter was matched
during admission; in particular, whenever a filter referencing the friendly
name (the free-text filter or the application-keyword filter) is active, that
filter matched the candidate.  The unconditional form fails when no such
filter is active. -/
theorem admission_sound_for_active_filters :
    ∀ (p d : Option String) (c : String) (fi fd fc : Option String)
      (fa : Option (List String)),
      should_include_object p d c fi fd fc fa = true →
      (∀ f, fi = some f → freeTextMatches p d c f = true)
      ∧ (∀ ks, fa = some ks → (ks.any fun app => freeTextMatches p d c app) = true) := by
  intro p d c fi fd fc fa h
  rw [shouldInclude_eq_filterMatchesAll] at h
  unfold filterMatchesAll at h
  simp only [Bool.and_eq_true] at h
  exact ⟨fun f hf => by subst hf; exact h.1.1.1,
         fun ks hks => by subst hks; exact h.2⟩

theorem admission_sound_for_active_filters_witness :
    should_include_object (some "Excel.Application") none "{00024500-0000-0000-C000-000000000046}"
      (some "EXCEL") none none (some ["word", "excel"]) = true
    ∧ freeTextMatches (some "Excel.Application") none
      "{00024500-0000-0000-C000-000000000046}" "EXCEL" = true
    ∧ (["word", "excel"].any fun app =>
        freeTextMatches (some "Excel.Application") none
          "{00024500-0000-0000-C000-000000000046}" app) = true :=
  ⟨by decide,
   (admission_sound_for_active_filters (some "Excel.Application") none
      "{00024500-0000-0000-C000-000000000046}" (some "EXCEL") none none
      (some ["word", "excel"]) (by decide)).1 "EXCEL" rfl,
   (admission_sound_for_active_filters (some "Excel.Application") none
      "{00024500-0000-0000-C000-000000000046}" (some "EXCEL") none none
      (some ["word", "excel"]) (by decide)).2 ["word", "excel"] rfl⟩

/-- C3: every scan configured with a positive ceiling returns a mapping of
size at most the ceiling, and with three entries all passing the filters under
ceiling 2 the result holds exactly the first two entries in enumeration
order. -/
theorem scan_ceiling_bound :
    (∀ (fi fd fc : Option String) (fa : Option (List String)) (limit : Nat)
        (entries : List RegEntry) (m : ComMap),
      0 < limit → scan_com_objects (some entries) limit fd fc fa fi = .ok m →
      m.length ≤ limit)
    ∧ scan_com_objects
        (some [⟨"A", some "pa", none⟩, ⟨"B", none, some "db"⟩, ⟨"C", none, none⟩])
        2 none none none none
      = .ok [("A", ⟨"A", some "pa", none⟩), ("B", ⟨"B", none, some "db"⟩)] := by
  constructor
  · intro fi fd fc fa limit entries m h1 h2
    simp only [scan_com_objects, Except.ok.injEq] at h2
    rw [← h2]
    exact scanLoop_length_le fi fd fc fa limit entries [] h1 (by simpa using h1)
  · rfl

theorem scan_ceiling_bound_witness :
    0 < 2
    ∧ ([("A", (⟨"A", some "pa", none⟩ : ComObject)),
        ("B", (⟨"B", none, some "db"⟩ : ComObject))] : ComMap).length ≤ 2 :=
  ⟨by decide,
   scan_ceiling_bound.1 none none none none 2
     [⟨"A", some "pa", none⟩, ⟨"B", none, some "db"⟩, ⟨"C", none, none⟩]
     [("A", ⟨"A", some "pa", none⟩), ("B", ⟨"B", none, some "db"⟩)]
     (by decide) scan_ceiling_bound.2⟩

/-- C7: every mapping produced by a scan satisfies the invariant that its
identifiers are pairwise distinct keys whose record `clsid` field equals the
key verbatim; the merge fold preserves that invariant; and inserting an
identifier that is already a key leaves the key list unchanged (the record is
updated in place, never duplicated). -/
theorem unique_identifier_invariant :
    (∀ (fi fd fc : Option String) (fa : Option (List String)) (limit : Nat)
        (entries : List RegEntry) (m : ComMap),
      scan_com_objects (some entries) limit fd fc fa fi = .ok m → MapWF m)
    ∧ (∀ (acc objects : ComMap), MapWF acc → (∀ p ∈ objects, p.2.clsid = p.1) →
        MapWF (mergeInto acc objects))
    ∧ (∀ (m : ComMap) (k : String) (v : ComObject),
        (mapLookup m k).isSome = true →
        (mapInsert m k v).map Prod.fst = m.map Prod.fst) := by
  refine ⟨?_, ?_, ?_⟩
  · intro fi fd fc fa limit entries m h
    simp only [scan_com_objects, Except.ok.injEq] at h
    rw [← h]
    exact scanLoop_WF fi fd fc fa limit entries [] ⟨by simp, by simp⟩
  · intro acc objects h1 h2
    exact mergeInto_WF objects acc h1 h2
  · intro m k v h
    exact keys_mapInsert_mem m k v ((lookup_isSome_iff_mem m k).1 h)

theorem unique_identifier_invariant_witness :
    MapWF [("A", (⟨"A", some "p", none⟩ : ComObject))]
    ∧ (mapInsert [("A", (⟨"A", none, none⟩ : ComObject))] "A"
        (⟨"A", some "p", none⟩ : ComObject)).map Prod.fst
      = [("A", (⟨"A", none, none⟩ : ComObject))].map Prod.fst :=
  ⟨unique_identifier_invariant.1 none none none none 0
     [⟨"A", none, none⟩, ⟨"A", some "p", none⟩]
     [("A", ⟨"A", some "p", none⟩)] rfl,
   unique_identifier_invariant.2.2 [("A", ⟨"A", none, none⟩)] "A"
     ⟨"A", some "p", none⟩ (by decide)⟩

/-- C1 fails as stated: merging two views that record different present
`prog_id` values under the same identifier is order-dependent — the fill rule
keeps whichever present value was processed first. -/
theorem merge_commutative_counterexample :
    mapLookup (mergeAll [.ok [("K", ⟨"K", some "x", none⟩)],
                         .ok [("K", ⟨"K", some "y", none⟩)]]) "K"
      ≠ mapLookup (mergeAll [.ok [("K", ⟨"K", some "y", none⟩)],
                             .ok [("K", ⟨"K", some "x", none⟩)]]) "K" := by
  decide

/-- C1 amended: the merge of two well-formed scan-result mappings is
commutative (extensionally, as a key-to-record mapping) provided that, for
every identifier present in both inputs, the two records never carry two
different present values in the same optional field; without that proviso the
first-processed view's present value wins and commutativity fails. -/
theorem merge_commutative_amended :
    ∀ (A B : ComMap), MapWF A → MapWF B →
      (∀ k ra rb, mapLookup A k = some ra → mapLookup B k = some rb →
        (∀ x y, ra.prog_id = some x → rb.prog_id = some y → x = y)
        ∧ (∀ x y, ra.description = some x → rb.description = some y → x = y)) →
      ∀ k, mapLookup (mergeAll [.ok A, .ok B]) k
            = mapLookup (mergeAll [.ok B, .ok A]) k := by
  intro A B hA hB hcompat k
  have h1 : mergeAll [.ok A, .ok B] = mergeInto (mergeInto [] A) B := rfl
  have h2 : mergeAll [.ok B, .ok A] = mergeInto (mergeInto [] B) A := rfl
  rw [h1, h2, lookup_mergeInto B (mergeInto [] A) k hB.1,
    lookup_mergeInto A (mergeInto [] B) k hA.1,
    lookup_mergeInto A [] k hA.1, lookup_mergeInto B [] k hB.1]
  cases ha : mapLookup A k with
  | none =>
    cases hb : mapLookup B k with
    | none => simp [mapLookup]
    | some rb => simp [mapLookup]
  | some ra =>
    cases hb : mapLookup B k with
    | none => simp [mapLookup]
    | some rb =>
      simp only [mapLookup]
      have hrak : ra.clsid = k := hA.2 (k, ra) (lookup_some_mem A k ra ha)
      have hrbk : rb.clsid = k := hB.2 (k, rb) (lookup_some_mem B k rb hb)
      have hcomp := hcompat k ra rb ha hb
      rw [fillRecord_comm ra rb (by rw [hrak, hrbk]) hcomp.1 hcomp.2]

theorem merge_commutative_amended_witness :
    mapLookup (mergeAll [.ok [("K", ⟨"K", some "x", none⟩)],
                         .ok [("K", ⟨"K", some "x", some "d"⟩)]]) "K"
      = mapLookup (mergeAll [.ok [("K", ⟨"K", some "x", some "d"⟩)],
                             .ok [("K", ⟨"K", some "x", none⟩)]]) "K" :=
  merge_commutative_amended
    [("K", ⟨"K", some "x", none⟩)] [("K", ⟨"K", some "x", some "d"⟩)]
    ⟨by decide, by decide⟩ ⟨by decide, by decide⟩
    (by
      intro k ra rb ha hb
      obtain rfl := lookup_singleton _ _ _ _ ha
      obtain rfl := lookup_singleton _ _ _ _ hb
      constructor
      · intro x y hx hy
        obtain rfl := Option.some.inj hx
        obtain rfl := Option.some.inj hy
        rfl
      · intro x y hx _
        simp at hx)
    "K"

end OleInspector
